import Mathlib

/-!
# Verification of the EAN-13 middle-section decoder

Shallow embedding of `src/core/src/oned/ODEAN13Reader.cpp`
(`FIRST_DIGIT_ENCODINGS`, `DetermineFirstDigit`, `EAN13Reader::decodeMiddle`).

The digit matcher (`DecodeDigit`), the guard finder (`FindGuardPattern`) and
the scanline (`BitArray`) are external collaborators of this translation unit;
the decoder is parameterised over them through `DecodeEnv`, and the contracts
the spec fixes for them (§4.3, §4.4) appear as explicit hypotheses
(`ContractLG`, `ContractL`, `ContractGuard`).

Strings become `List Char` (`push_back` appends, `insert(0,1,c)` conses);
`std::array<int,4>` counters become the `Counters` structure; the in-out
parameters `rowOffset` and `resultString` are threaded as explicit state, so
`decodeMiddle` returns the status together with their final values.
-/

/-- Decode status. Modelled from the spec: `ErrorStatus.h` is not part of the
sources; §6 fixes the outbound contract `status ∈ \x7bOk, NotFound\x7d`, with
`NoError` the success value used by the sources. -/
inductive ErrorStatus where
  | NoError : ErrorStatus
  | NotFound : ErrorStatus
deriving DecidableEq, Repr

/-- Modelled from the spec: `StatusIsError` of `ErrorStatus.h` holds exactly
for the non-success statuses (§7: errors are values that short-circuit). -/
def StatusIsError : ErrorStatus → Bool
  | ErrorStatus.NoError => false
  | ErrorStatus.NotFound => true

/-- The four run widths `DecodeDigit` emits (`std::array<int, 4> counters`). -/
structure Counters where
  c0 : Nat
  c1 : Nat
  c2 : Nat
  c3 : Nat
deriving DecidableEq, Repr

/-- Sum of the four counters (`for (int counter : counters) rowOffset += counter`). -/
def Counters.sum (c : Counters) : Nat := c.c0 + c.c1 + c.c2 + c.c3

/-- The decoder's external collaborators, fixed for one invocation:
the scanline length `row.size()`, the digit matcher specialised to the
20-entry `L_AND_G_PATTERNS` table and to the 10-entry `L_PATTERNS` table
(given the row offset it reads at, it yields `none` for `NotFound` or the
`bestMatch` index with the four run lengths), and the guard finder for
`MIDDLE_PATTERN` (yielding the `(middleRangeBegin, middleRangeEnd)` span). -/
structure DecodeEnv where
  rowSize : Nat
  decodeLG : Nat → Option (Nat × Counters)
  decodeL : Nat → Option (Nat × Counters)
  findGuard : Nat → Option (Nat × Nat)

/-- Matcher contract for the 20-entry `L_AND_G_PATTERNS` table (spec §4.3):
`bestMatch` indexes the supplied table, and the counters are the run lengths
starting at the cursor, hence lie inside the scanline. -/
def ContractLG (env : DecodeEnv) : Prop :=
  ∀ off bm cs, env.decodeLG off = some (bm, cs) →
    bm < 20 ∧ off + cs.sum ≤ env.rowSize

/-- Matcher contract for the 10-entry `L_PATTERNS` table (spec §4.3). -/
def ContractL (env : DecodeEnv) : Prop :=
  ∀ off bm cs, env.decodeL off = some (bm, cs) →
    bm < 10 ∧ off + cs.sum ≤ env.rowSize

/-- Guard-finder contract (spec §4.4): the matched span starts at or after
the cursor, is nonempty (the middle guard is five runs of at least one bit),
and lies inside the scanline. -/
def ContractGuard (env : DecodeEnv) : Prop :=
  ∀ off b e, env.findGuard off = some (b, e) →
    off ≤ b ∧ b < e ∧ e ≤ env.rowSize

/-- The table `FIRST_DIGIT_ENCODINGS` of ODEAN13Reader.cpp. -/
def FIRST_DIGIT_ENCODINGS : List Nat :=
  [0x00, 0x0B, 0x0D, 0xE, 0x13, 0x19, 0x1C, 0x15, 0x16, 0x1A]

/-- The `for (int d = 0; d < 10; d++)` search of `DetermineFirstDigit`:
`fuel` counts the iterations left (`10 - d`), `d` is the loop variable.
On `lgPatternFound == FIRST_DIGIT_ENCODINGS[d]` the digit is inserted at
position 0 (`resultString.insert(0, 1, (char)(48 + d))`) with `NoError`;
a completed loop returns `NotFound`. -/
def firstDigitSearch (resultString : List Char) (lgPatternFound : Nat) :
    Nat → Nat → ErrorStatus × List Char
  | _, 0 => (ErrorStatus.NotFound, resultString)
  | d, fuel + 1 =>
    if lgPatternFound = FIRST_DIGIT_ENCODINGS.getD d 0 then
      (ErrorStatus.NoError, Char.ofNat (48 + d) :: resultString)
    else
      firstDigitSearch resultString lgPatternFound (d + 1) fuel

/-- `DetermineFirstDigit` of ODEAN13Reader.cpp. -/
def DetermineFirstDigit (resultString : List Char) (lgPatternFound : Nat) :
    ErrorStatus × List Char :=
  firstDigitSearch resultString lgPatternFound 0 10

/-- The left-half loop `for (int x = 0; x < 6 && rowOffset < end; x++)` of
`decodeMiddle`: `fuel` counts the iterations the bound `x < 6` still allows
(`6 - x`), `x` is the loop variable feeding the parity-bit position.
Each successful `DecodeDigit` against `L_AND_G_PATTERNS` appends
`(char)(48 + bestMatch % 10)`, advances the cursor by the counter sum, and
sets bit `5 - x` of `lgPatternFound` when `bestMatch >= 10`; a matcher error
returns immediately with the partial state. -/
def leftHalf (env : DecodeEnv) :
    Nat → Nat → Nat → List Char → Nat → ErrorStatus × Nat × List Char × Nat
  | 0, _, rowOffset, resultString, lgPatternFound =>
    (ErrorStatus.NoError, rowOffset, resultString, lgPatternFound)
  | fuel + 1, x, rowOffset, resultString, lgPatternFound =>
    if rowOffset < env.rowSize then
      match env.decodeLG rowOffset with
      | none => (ErrorStatus.NotFound, rowOffset, resultString, lgPatternFound)
      | some (bestMatch, counters) =>
        leftHalf env fuel (x + 1) (rowOffset + counters.sum)
          (resultString ++ [Char.ofNat (48 + bestMatch % 10)])
          (if 10 ≤ bestMatch then lgPatternFound ||| (1 <<< (5 - x))
           else lgPatternFound)
    else
      (ErrorStatus.NoError, rowOffset, resultString, lgPatternFound)

/-- The right-half loop `for (int x = 0; x < 6 && rowOffset < end; x++)` of
`decodeMiddle`: each successful `DecodeDigit` against `L_PATTERNS` appends
`(char)(48 + bestMatch)` and advances the cursor by the counter sum. -/
def rightHalf (env : DecodeEnv) :
    Nat → Nat → List Char → ErrorStatus × Nat × List Char
  | 0, rowOffset, resultString => (ErrorStatus.NoError, rowOffset, resultString)
  | fuel + 1, rowOffset, resultString =>
    if rowOffset < env.rowSize then
      match env.decodeL rowOffset with
      | none => (ErrorStatus.NotFound, rowOffset, resultString)
      | some (bestMatch, counters) =>
        rightHalf env fuel (rowOffset + counters.sum)
          (resultString ++ [Char.ofNat (48 + bestMatch)])
    else
      (ErrorStatus.NoError, rowOffset, resultString)

/-- The tail of `decodeMiddle` after first-digit determination: the
`FindGuardPattern(row, rowOffset, true, MIDDLE_PATTERN, ...)` call (whose
failure is returned with the cursor unchanged), then
`rowOffset = middleRangeEnd` and the right-half loop. -/
def afterFirstDigit (env : DecodeEnv) (rowOffset : Nat)
    (resultString : List Char) : ErrorStatus × Nat × List Char :=
  match env.findGuard rowOffset with
  | none => (ErrorStatus.NotFound, rowOffset, resultString)
  | some (_middleRangeBegin, middleRangeEnd) =>
    rightHalf env 6 middleRangeEnd resultString

/-- `EAN13Reader::decodeMiddle` of ODEAN13Reader.cpp: left-half loop from
`lgPatternFound = 0`, `DetermineFirstDigit`, middle-guard search, right-half
loop; every error short-circuits with the current `rowOffset`/`resultString`. -/
def decodeMiddle (env : DecodeEnv) (rowOffset : Nat) (resultString : List Char) :
    ErrorStatus × Nat × List Char :=
  match leftHalf env 6 0 rowOffset resultString 0 with
  | (status, off, res, lgPatternFound) =>
    if StatusIsError status then (status, off, res)
    else
      match DetermineFirstDigit res lgPatternFound with
      | (status2, res2) =>
        if StatusIsError status2 then (status2, off, res2)
        else afterFirstDigit env off res2

/-- Sequence of `bestMatch` values the left-half loop obtains, mirroring its
control flow (stops at fuel exhaustion, cursor exhaustion, or matcher error). -/
def leftBMs (env : DecodeEnv) : Nat → Nat → List Nat
  | 0, _ => []
  | fuel + 1, rowOffset =>
    if rowOffset < env.rowSize then
      match env.decodeLG rowOffset with
      | none => []
      | some (bestMatch, counters) =>
        bestMatch :: leftBMs env fuel (rowOffset + counters.sum)
    else []

/-- Sequence of `bestMatch` values the right-half loop obtains. -/
def rightBMs (env : DecodeEnv) : Nat → Nat → List Nat
  | 0, _ => []
  | fuel + 1, rowOffset =>
    if rowOffset < env.rowSize then
      match env.decodeL rowOffset with
      | none => []
      | some (bestMatch, counters) =>
        bestMatch :: rightBMs env fuel (rowOffset + counters.sum)
    else []

/-- Spec-side copy of the first-digit encoding map `E` (spec §3, Data model),
kept separate from the source table so the two can be compared. -/
def specFirstDigitE : Nat → Nat
  | 0 => 0x00
  | 1 => 0x0B
  | 2 => 0x0D
  | 3 => 0x0E
  | 4 => 0x13
  | 5 => 0x19
  | 6 => 0x1C
  | 7 => 0x15
  | 8 => 0x16
  | _ => 0x1A

/-- Concrete environment: six left-half digits (all L-pattern `0`, runs
`3,2,1,1`) occupy bits 0..41, the middle guard is found at bits 42..46, and
the scanline ends exactly at bit 47, so the right-half loop runs zero times. -/
def exEnv : DecodeEnv where
  rowSize := 47
  decodeLG := fun off =>
    if off + 7 ≤ 42 then some (0, ⟨3, 2, 1, 1⟩) else none
  decodeL := fun _ => none
  findGuard := fun off => if off = 42 then some (42, 47) else none

/-- Concrete environment: a full decode succeeds — six left digits at bits
0..41, middle guard at 42..46, six right digits (all `5`, runs `1,2,3,1`)
at bits 47..88, scanline of 89 bits. -/
def exEnvOk : DecodeEnv where
  rowSize := 89
  decodeLG := fun off =>
    if off + 7 ≤ 42 then some (0, ⟨3, 2, 1, 1⟩) else none
  decodeL := fun off =>
    if 47 ≤ off ∧ off + 7 ≤ 89 then some (5, ⟨1, 2, 3, 1⟩) else none
  findGuard := fun off => if off = 42 then some (42, 47) else none

/-- Concrete environment: the scanline holds only two digits' worth of bits
(14), so the left-half loop exhausts the cursor after two iterations; the
guard finder never matches. -/
def exEnvShort : DecodeEnv where
  rowSize := 14
  decodeLG := fun off =>
    if off + 7 ≤ 14 then some (0, ⟨3, 2, 1, 1⟩) else none
  decodeL := fun _ => none
  findGuard := fun _ => none

example : decodeMiddle exEnv 0 [] =
    (ErrorStatus.NoError, 47,
      [Char.ofNat 48, Char.ofNat 48, Char.ofNat 48, Char.ofNat 48,
       Char.ofNat 48, Char.ofNat 48, Char.ofNat 48]) := by decide

example : (decodeMiddle exEnvOk 0 []).1 = ErrorStatus.NoError ∧
    ((decodeMiddle exEnvOk 0 []).2.2).length = 13 ∧
    (decodeMiddle exEnvOk 0 []).2.1 = 89 := by decide

example : decodeMiddle exEnvShort 0 [] =
    (ErrorStatus.NotFound, 14,
      [Char.ofNat 48, Char.ofNat 48, Char.ofNat 48]) := by decide

/-- The search loop returns `NotFound` exactly when no remaining table entry
equals the pattern. -/
lemma firstDigitSearch_notFound_iff (res : List Char) (lg d fuel : Nat) :
    (firstDigitSearch res lg d fuel).1 = ErrorStatus.NotFound ↔
      ∀ k, k < fuel → lg ≠ FIRST_DIGIT_ENCODINGS.getD (d + k) 0 := by
  induction fuel generalizing d with
  | zero => simp [firstDigitSearch]
  | succ f ih =>
    by_cases h : lg = FIRST_DIGIT_ENCODINGS.getD d 0
    · simp only [firstDigitSearch, if_pos h]
      constructor
      · intro hc; exact absurd hc (by simp)
      · intro hall; exact absurd h (by simpa using hall 0 (Nat.succ_pos f))
    · simp only [firstDigitSearch, if_neg h]
      rw [ih]
      constructor
      · intro hall k hk
        match k with
        | 0 => simpa using h
        | k + 1 =>
          have hrec := hall k (by omega)
          rwa [Nat.add_right_comm d 1 k, Nat.add_assoc d k 1] at hrec
      · intro hall k hk
        have hrec := hall (k + 1) (by omega)
        rwa [← Nat.add_assoc d k 1, ← Nat.add_right_comm d 1 k] at hrec

/-- The search loop either fails leaving the string untouched, or conses the
character of the matched entry onto the string with success. -/
lemma firstDigitSearch_shape (res : List Char) (lg d fuel : Nat) :
    firstDigitSearch res lg d fuel = (ErrorStatus.NotFound, res) ∨
      ∃ k, k < fuel ∧ lg = FIRST_DIGIT_ENCODINGS.getD (d + k) 0 ∧
        firstDigitSearch res lg d fuel =
          (ErrorStatus.NoError, Char.ofNat (48 + (d + k)) :: res) := by
  induction fuel generalizing d with
  | zero => left; simp [firstDigitSearch]
  | succ f ih =>
    by_cases h : lg = FIRST_DIGIT_ENCODINGS.getD d 0
    · right
      exact ⟨0, Nat.succ_pos f, by simpa using h, by simp [firstDigitSearch, h]⟩
    · rcases ih (d + 1) with h1 | ⟨k, hk, heq, hval⟩
      · left
        simp only [firstDigitSearch, if_neg h]
        exact h1
      · right
        refine ⟨k + 1, by omega, ?_, ?_⟩
        · rwa [Nat.add_right_comm d 1 k, Nat.add_assoc d k 1] at heq
        · simp only [firstDigitSearch, if_neg h]
          rwa [Nat.add_right_comm d 1 k, Nat.add_assoc d k 1] at hval

/-- The search loop stops at the first matching entry. -/
lemma firstDigitSearch_hit (res : List Char) (lg d k fuel : Nat)
    (hk : k < fuel) (hhit : lg = FIRST_DIGIT_ENCODINGS.getD (d + k) 0)
    (hmin : ∀ j, j < k → lg ≠ FIRST_DIGIT_ENCODINGS.getD (d + j) 0) :
    firstDigitSearch res lg d fuel =
      (ErrorStatus.NoError, Char.ofNat (48 + (d + k)) :: res) := by
  induction fuel generalizing d k with
  | zero => omega
  | succ f ih =>
    match k with
    | 0 =>
      simp only [Nat.add_zero] at hhit
      simp [firstDigitSearch, hhit]
    | k + 1 =>
      have h0 : lg ≠ FIRST_DIGIT_ENCODINGS.getD d 0 := by
        simpa using hmin 0 (Nat.succ_pos k)
      simp only [firstDigitSearch, if_neg h0]
      have hrec := ih (d + 1) k (by omega)
        (by rwa [← Nat.add_assoc d k 1, ← Nat.add_right_comm d 1 k] at hhit)
        (fun j hj => by
          have := hmin (j + 1) (by omega)
          rwa [← Nat.add_assoc d j 1, ← Nat.add_right_comm d 1 j] at this)
      rwa [Nat.add_right_comm d 1 k, Nat.add_assoc d k 1] at hrec

/-- C7: the table `FIRST_DIGIT_ENCODINGS` agrees entry by entry with the
spec's first-digit encoding map `E`, and the ten entries are pairwise
distinct (the map is injective). -/
theorem FIRST_DIGIT_ENCODINGS_matches_spec_and_injective :
    (∀ d : Fin 10, FIRST_DIGIT_ENCODINGS.getD d.val 0 = specFirstDigitE d.val) ∧
    ∀ i j : Fin 10, FIRST_DIGIT_ENCODINGS.getD i.val 0 =
      FIRST_DIGIT_ENCODINGS.getD j.val 0 → i = j := by decide

/-- Witness for C7: applying the injectivity half at the two equal entries
for digit 3 (value 0x0E). -/
theorem FIRST_DIGIT_ENCODINGS_matches_spec_and_injective_witness :
    (⟨3, by decide⟩ : Fin 10) = ⟨3, by decide⟩ :=
  FIRST_DIGIT_ENCODINGS_matches_spec_and_injective.2 ⟨3, by decide⟩
    ⟨3, by decide⟩ (by decide)

/-- C3: for every 6-bit parity mask, `DetermineFirstDigit` fails with
`NotFound` exactly when the mask is outside the image of
`FIRST_DIGIT_ENCODINGS`; when the mask equals the entry of digit `d`, it
inserts the character `48 + d` at position 0 and returns `NoError`. The
comparison is exact equality. -/
theorem DetermineFirstDigit_spec (res : List Char) (P : Nat) (hP : P < 64) :
    ((DetermineFirstDigit res P).1 = ErrorStatus.NotFound ↔
      ∀ d, d < 10 → FIRST_DIGIT_ENCODINGS.getD d 0 ≠ P) ∧
    ∀ d, d < 10 → P = FIRST_DIGIT_ENCODINGS.getD d 0 →
      DetermineFirstDigit res P =
        (ErrorStatus.NoError, Char.ofNat (48 + d) :: res) := by
  constructor
  · rw [DetermineFirstDigit, firstDigitSearch_notFound_iff]
    constructor
    · intro hall d hd
      exact fun hc => hall d (by omega) (by simpa using hc.symm)
    · intro hall k hk
      exact fun hc => hall k (by omega) (by simpa using hc.symm)
  · intro d hd heq
    have hinj : ∀ i : Fin 10, ∀ j : Fin 10,
        FIRST_DIGIT_ENCODINGS.getD i.val 0 = FIRST_DIGIT_ENCODINGS.getD j.val 0 →
          i = j := by decide
    have hmin : ∀ j, j < d → P ≠ FIRST_DIGIT_ENCODINGS.getD (0 + j) 0 := by
      intro j hj hc
      have hij : (⟨j, by omega⟩ : Fin 10) = ⟨d, by omega⟩ := by
        apply hinj
        simp only
        rw [← heq]
        simpa using hc.symm
      have : j = d := congrArg Fin.val hij
      omega
    have := firstDigitSearch_hit res P 0 d 10 (by omega) (by simpa using heq) hmin
    simpa [DetermineFirstDigit] using this

/-- Witness for C3: at mask 0x0B and an empty result, `DetermineFirstDigit`
inserts the character of digit 1. -/
theorem DetermineFirstDigit_spec_witness :
    DetermineFirstDigit [] 11 = (ErrorStatus.NoError, [Char.ofNat 49]) :=
  (DetermineFirstDigit_spec [] 11 (by decide)).2 1 (by decide) (by decide)

/-- C8: `DetermineFirstDigit` is atomic — on `NotFound` the result string is
returned unchanged, and on `NoError` exactly one character (the decoded
digit) has been consed onto the front. -/
theorem DetermineFirstDigit_atomic (res : List Char) (P : Nat) :
    ((DetermineFirstDigit res P).1 = ErrorStatus.NotFound →
      (DetermineFirstDigit res P).2 = res) ∧
    ((DetermineFirstDigit res P).1 = ErrorStatus.NoError →
      ∃ d, d < 10 ∧ (DetermineFirstDigit res P).2 = Char.ofNat (48 + d) :: res) := by
  rcases firstDigitSearch_shape res P 0 10 with h | ⟨k, hk, _, hval⟩
  · rw [DetermineFirstDigit, h]
    exact ⟨fun _ => rfl, fun hc => absurd hc (by simp)⟩
  · rw [DetermineFirstDigit, hval]
    refine ⟨fun hc => absurd hc (by simp), fun _ => ⟨k, by omega, ?_⟩⟩
    simp

/-- Witness for C8: at mask 0x07 (not a legal parity pattern) the result
string is left unchanged. -/
theorem DetermineFirstDigit_atomic_witness :
    (DetermineFirstDigit [] 7).2 = [] :=
  (DetermineFirstDigit_atomic [] 7).1 (by decide)

/-- The right-half loop only appends: its result string is the input followed
by the character `48 + bestMatch` of each matched digit, in order. -/
lemma rightHalf_res (env : DecodeEnv) (fuel : Nat) :
    ∀ off res, (rightHalf env fuel off res).2.2 =
      res ++ (rightBMs env fuel off).map (fun bm => Char.ofNat (48 + bm)) := by
  induction fuel with
  | zero => intro off res; simp [rightHalf, rightBMs]
  | succ f ih =>
    intro off res
    by_cases h : off < env.rowSize
    · cases hd : env.decodeL off with
      | none => simp [rightHalf, rightBMs, if_pos h, hd]
      | some v =>
        obtain ⟨bm, cs⟩ := v
        simp [rightHalf, rightBMs, if_pos h, hd, ih]
    · simp [rightHalf, rightBMs, if_neg h]

/-- The right-half loop performs at most `fuel` iterations. -/
lemma rightBMs_length_le (env : DecodeEnv) (fuel : Nat) :
    ∀ off, (rightBMs env fuel off).length ≤ fuel := by
  induction fuel with
  | zero => intro off; simp [rightBMs]
  | succ f ih =>
    intro off
    by_cases h : off < env.rowSize
    · cases hd : env.decodeL off with
      | none => simp [rightBMs, if_pos h, hd]
      | some v =>
        obtain ⟨bm, cs⟩ := v
        simp only [rightBMs, if_pos h, hd, List.length_cons]
        exact Nat.succ_le_succ (ih _)
    · simp [rightBMs, if_neg h]

/-- Under the matcher contract every right-half `bestMatch` indexes the
10-entry L-table. -/
lemma rightBMs_lt (env : DecodeEnv) (hL : ContractL env) (fuel : Nat) :
    ∀ off bm, bm ∈ rightBMs env fuel off → bm < 10 := by
  induction fuel with
  | zero => intro off bm hbm; simp [rightBMs] at hbm
  | succ f ih =>
    intro off bm hbm
    by_cases h : off < env.rowSize
    · cases hd : env.decodeL off with
      | none => simp [rightBMs, if_pos h, hd] at hbm
      | some v =>
        obtain ⟨bm2, cs⟩ := v
        simp only [rightBMs, if_pos h, hd, List.mem_cons] at hbm
        rcases hbm with rfl | hbm
        · exact (hL off bm cs hd).1
        · exact ih _ _ hbm
    · simp [rightBMs, if_neg h] at hbm

/-- The right-half loop never moves the cursor backwards. -/
lemma rightHalf_off_mono (env : DecodeEnv) (fuel : Nat) :
    ∀ off res, off ≤ (rightHalf env fuel off res).2.1 := by
  induction fuel with
  | zero => intro off res; simp [rightHalf]
  | succ f ih =>
    intro off res
    by_cases h : off < env.rowSize
    · cases hd : env.decodeL off with
      | none => simp [rightHalf, if_pos h, hd]
      | some v =>
        obtain ⟨bm, cs⟩ := v
        simp only [rightHalf, if_pos h, hd]
        exact le_trans (Nat.le_add_right off cs.sum) (ih _ _)
    · simp [rightHalf, if_neg h]

/-- Under the matcher contract the right-half loop keeps the cursor inside
the scanline. -/
lemma rightHalf_off_le (env : DecodeEnv) (hL : ContractL env) (fuel : Nat) :
    ∀ off res, off ≤ env.rowSize →
      (rightHalf env fuel off res).2.1 ≤ env.rowSize := by
  induction fuel with
  | zero => intro off res hoff; simpa [rightHalf] using hoff
  | succ f ih =>
    intro off res hoff
    by_cases h : off < env.rowSize
    · cases hd : env.decodeL off with
      | none => simpa [rightHalf, if_pos h, hd] using hoff
      | some v =>
        obtain ⟨bm, cs⟩ := v
        simp only [rightHalf, if_pos h, hd]
        exact ih _ _ (hL off bm cs hd).2
    · simpa [rightHalf, if_neg h] using hoff

/-- A right-half loop that returns `NoError` either ran all its iterations
or stopped with the cursor at or past the scanline end. -/
lemma rightHalf_noError (env : DecodeEnv) (fuel : Nat) :
    ∀ off res, (rightHalf env fuel off res).1 = ErrorStatus.NoError →
      (rightBMs env fuel off).length = fuel ∨
        env.rowSize ≤ (rightHalf env fuel off res).2.1 := by
  induction fuel with
  | zero => intro off res _; left; simp [rightBMs]
  | succ f ih =>
    intro off res hst
    by_cases h : off < env.rowSize
    · cases hd : env.decodeL off with
      | none => simp [rightHalf, if_pos h, hd] at hst
      | some v =>
        obtain ⟨bm, cs⟩ := v
        simp only [rightHalf, if_pos h, hd] at hst ⊢
        rcases ih _ (res ++ [Char.ofNat (48 + bm)]) hst with h1 | h1
        · left; simp [rightBMs, if_pos h, hd, h1]
        · right; exact h1
    · right; simpa [rightHalf, if_neg h] using Nat.le_of_not_lt h

/-- A right-half loop entered with the cursor at or past the scanline end
returns `NoError` immediately, leaving cursor and result untouched. -/
lemma rightHalf_exhausted (env : DecodeEnv) (fuel off : Nat) (res : List Char)
    (h : env.rowSize ≤ off) :
    rightHalf env fuel off res = (ErrorStatus.NoError, off, res) := by
  cases fuel with
  | zero => simp [rightHalf]
  | succ f => simp [rightHalf, Nat.not_lt.2 h]

/-- The left-half loop only appends: its result string is the input followed
by the character `48 + bestMatch % 10` of each matched digit, in order. -/
lemma leftHalf_res (env : DecodeEnv) (fuel : Nat) :
    ∀ x off res lg, (leftHalf env fuel x off res lg).2.2.1 =
      res ++ (leftBMs env fuel off).map (fun bm => Char.ofNat (48 + bm % 10)) := by
  induction fuel with
  | zero => intro x off res lg; simp [leftHalf, leftBMs]
  | succ f ih =>
    intro x off res lg
    by_cases h : off < env.rowSize
    · cases hd : env.decodeLG off with
      | none => simp [leftHalf, leftBMs, if_pos h, hd]
      | some v =>
        obtain ⟨bm, cs⟩ := v
        simp [leftHalf, leftBMs, if_pos h, hd, ih]
    · simp [leftHalf, leftBMs, if_neg h]

/-- The left-half loop performs at most `fuel` iterations. -/
lemma leftBMs_length_le (env : DecodeEnv) (fuel : Nat) :
    ∀ off, (leftBMs env fuel off).length ≤ fuel := by
  induction fuel with
  | zero => intro off; simp [leftBMs]
  | succ f ih =>
    intro off
    by_cases h : off < env.rowSize
    · cases hd : env.decodeLG off with
      | none => simp [leftBMs, if_pos h, hd]
      | some v =>
        obtain ⟨bm, cs⟩ := v
        simp only [leftBMs, if_pos h, hd, List.length_cons]
        exact Nat.succ_le_succ (ih _)
    · simp [leftBMs, if_neg h]

/-- The left-half loop never moves the cursor backwards. -/
lemma leftHalf_off_mono (env : DecodeEnv) (fuel : Nat) :
    ∀ x off res lg, off ≤ (leftHalf env fuel x off res lg).2.1 := by
  induction fuel with
  | zero => intro x off res lg; simp [leftHalf]
  | succ f ih =>
    intro x off res lg
    by_cases h : off < env.rowSize
    · cases hd : env.decodeLG off with
      | none => simp [leftHalf, if_pos h, hd]
      | some v =>
        obtain ⟨bm, cs⟩ := v
        simp only [leftHalf, if_pos h, hd]
        exact le_trans (Nat.le_add_right off cs.sum) (ih _ _ _ _)
    · simp [leftHalf, if_neg h]

/-- Under the matcher contract the left-half loop keeps the cursor inside
the scanline. -/
lemma leftHalf_off_le (env : DecodeEnv) (hLG : ContractLG env) (fuel : Nat) :
    ∀ x off res lg, off ≤ env.rowSize →
      (leftHalf env fuel x off res lg).2.1 ≤ env.rowSize := by
  induction fuel with
  | zero => intro x off res lg hoff; simpa [leftHalf] using hoff
  | succ f ih =>
    intro x off res lg hoff
    by_cases h : off < env.rowSize
    · cases hd : env.decodeLG off with
      | none => simpa [leftHalf, if_pos h, hd] using hoff
      | some v =>
        obtain ⟨bm, cs⟩ := v
        simp only [leftHalf, if_pos h, hd]
        exact ih _ _ _ _ (hLG off bm cs hd).2
    · simpa [leftHalf, if_neg h] using hoff

/-- A left-half loop that returns `NoError` either ran all its iterations or
stopped with the cursor at or past the scanline end. -/
lemma leftHalf_noError (env : DecodeEnv) (fuel : Nat) :
    ∀ x off res lg, (leftHalf env fuel x off res lg).1 = ErrorStatus.NoError →
      (leftBMs env fuel off).length = fuel ∨
        env.rowSize ≤ (leftHalf env fuel x off res lg).2.1 := by
  induction fuel with
  | zero => intro x off res lg _; left; simp [leftBMs]
  | succ f ih =>
    intro x off res lg hst
    by_cases h : off < env.rowSize
    · cases hd : env.decodeLG off with
      | none => simp [leftHalf, if_pos h, hd] at hst
      | some v =>
        obtain ⟨bm, cs⟩ := v
        simp only [leftHalf, if_pos h, hd] at hst ⊢
        rcases ih _ _ _ _ hst with h1 | h1
        · left; simp [leftBMs, if_pos h, hd, h1]
        · right; exact h1
    · right; simpa [leftHalf, if_neg h] using Nat.le_of_not_lt h

/-- The status of the left-half loop: the only error exit is a matcher
failure, reported as `NotFound`. -/
lemma leftHalf_status (env : DecodeEnv) (fuel : Nat) :
    ∀ x off res lg, (leftHalf env fuel x off res lg).1 = ErrorStatus.NoError ∨
      (leftHalf env fuel x off res lg).1 = ErrorStatus.NotFound := by
  induction fuel with
  | zero => intro x off res lg; left; simp [leftHalf]
  | succ f ih =>
    intro x off res lg
    by_cases h : off < env.rowSize
    · cases hd : env.decodeLG off with
      | none => right; simp [leftHalf, if_pos h, hd]
      | some v =>
        obtain ⟨bm, cs⟩ := v
        simp only [leftHalf, if_pos h, hd]
        exact ih _ _ _ _
    · left; simp [leftHalf, if_neg h]

/-- Bit-level behaviour of the parity accumulator `lgPatternFound`: entering
the loop at position `x` with a mask below 64 whose low `fuel` bits are
clear, the loop keeps the mask below 64, leaves the bits already set for
digits before `x` unchanged, and sets bit `5 - y` exactly when the digit
matched at relative position `y - x` had `bestMatch >= 10`. -/
lemma leftHalf_lg (env : DecodeEnv) (fuel : Nat) :
    ∀ x off res lg, x + fuel = 6 →
      (∀ p, p < fuel → lg.testBit p = false) → lg < 64 →
      (leftHalf env fuel x off res lg).2.2.2 < 64 ∧
      ∀ y, y < 6 → (leftHalf env fuel x off res lg).2.2.2.testBit (5 - y) =
        if y < x then lg.testBit (5 - y)
        else decide (10 ≤ (leftBMs env fuel off).getD (y - x) 0) := by
  induction fuel with
  | zero =>
    intro x off res lg hx hlow hlg
    refine ⟨by simpa [leftHalf] using hlg, ?_⟩
    intro y hy
    rw [if_pos (by omega)]
    simp [leftHalf]
  | succ f ih =>
    intro x off res lg hx hlow hlg
    by_cases h : off < env.rowSize
    · cases hd : env.decodeLG off with
      | none =>
        have hL : leftHalf env (f + 1) x off res lg =
            (ErrorStatus.NotFound, off, res, lg) := by
          simp [leftHalf, if_pos h, hd]
        have hB : leftBMs env (f + 1) off = [] := by
          simp [leftBMs, if_pos h, hd]
        refine ⟨by rw [hL]; exact hlg, ?_⟩
        intro y hy
        rw [hL, hB]
        by_cases hyx : y < x
        · rw [if_pos hyx]
        · rw [if_neg hyx]
          have h5 : 5 - y < f + 1 := by omega
          simp [hlow (5 - y) h5]
      | some v =>
        obtain ⟨bm, cs⟩ := v
        have hB : leftBMs env (f + 1) off = bm :: leftBMs env f (off + cs.sum) := by
          simp [leftBMs, if_pos h, hd]
        by_cases hbm : 10 ≤ bm
        · have hL : leftHalf env (f + 1) x off res lg =
              leftHalf env f (x + 1) (off + cs.sum)
                (res ++ [Char.ofNat (48 + bm % 10)]) (lg ||| (1 <<< (5 - x))) := by
            simp [leftHalf, if_pos h, hd, if_pos hbm]
          have hlg2lt : lg ||| (1 <<< (5 - x)) < 64 := by
            rw [Nat.one_shiftLeft]
            exact Nat.or_lt_two_pow (n := 6) hlg
              (Nat.pow_lt_pow_right (by omega) (by omega))
          have hlow2 : ∀ p, p < f → (lg ||| (1 <<< (5 - x))).testBit p = false := by
            intro p hp
            rw [Nat.one_shiftLeft, Nat.testBit_or, hlow p (by omega),
              Nat.testBit_two_pow_of_ne (by omega)]
            rfl
          have hrec := ih (x + 1) (off + cs.sum)
            (res ++ [Char.ofNat (48 + bm % 10)]) (lg ||| (1 <<< (5 - x)))
            (by omega) hlow2 hlg2lt
          refine ⟨by rw [hL]; exact hrec.1, ?_⟩
          intro y hy
          rw [hL, hrec.2 y hy, hB]
          by_cases hyx : y < x
          · rw [if_pos (by omega : y < x + 1), if_pos hyx, Nat.one_shiftLeft,
              Nat.testBit_or, Nat.testBit_two_pow_of_ne (by omega)]
            exact Bool.or_false _
          · by_cases hyx2 : y = x
            · subst hyx2
              rw [if_pos (by omega : y < y + 1), if_neg hyx, Nat.one_shiftLeft,
                Nat.testBit_or, hlow (5 - y) (by omega), Nat.testBit_two_pow_self]
              have hg : (bm :: leftBMs env f (off + cs.sum)).getD (y - y) 0 = bm := by
                simp
              rw [hg]
              simp [hbm]
            · rw [if_neg (by omega : ¬ y < x + 1), if_neg hyx]
              have hyx3 : y - x = (y - (x + 1)) + 1 := by omega
              rw [hyx3, List.getD_cons_succ]
        · have hL : leftHalf env (f + 1) x off res lg =
              leftHalf env f (x + 1) (off + cs.sum)
                (res ++ [Char.ofNat (48 + bm % 10)]) lg := by
            simp [leftHalf, if_pos h, hd, if_neg hbm]
          have hrec := ih (x + 1) (off + cs.sum)
            (res ++ [Char.ofNat (48 + bm % 10)]) lg
            (by omega) (fun p hp => hlow p (by omega)) hlg
          refine ⟨by rw [hL]; exact hrec.1, ?_⟩
          intro y hy
          rw [hL, hrec.2 y hy, hB]
          by_cases hyx : y < x
          · rw [if_pos (by omega : y < x + 1), if_pos hyx]
          · by_cases hyx2 : y = x
            · subst hyx2
              rw [if_pos (by omega : y < y + 1), if_neg hyx, hlow (5 - y) (by omega)]
              have hg : (bm :: leftBMs env f (off + cs.sum)).getD (y - y) 0 = bm := by
                simp
              rw [hg]
              simp [hbm]
            · rw [if_neg (by omega : ¬ y < x + 1), if_neg hyx]
              have hyx3 : y - x = (y - (x + 1)) + 1 := by omega
              rw [hyx3, List.getD_cons_succ]
    · have hL : leftHalf env (f + 1) x off res lg =
          (ErrorStatus.NoError, off, res, lg) := by
        simp [leftHalf, if_neg h]
      have hB : leftBMs env (f + 1) off = [] := by
        simp [leftBMs, if_neg h]
      refine ⟨by rw [hL]; exact hlg, ?_⟩
      intro y hy
      rw [hL, hB]
      by_cases hyx : y < x
      · rw [if_pos hyx]
      · rw [if_neg hyx]
        have h5 : 5 - y < f + 1 := by omega
        simp [hlow (5 - y) h5]

/-- A left-half loop entered with the cursor at or past the scanline end
returns `NoError` immediately, leaving all state untouched. -/
lemma leftHalf_exhausted (env : DecodeEnv) (fuel x off : Nat) (res : List Char)
    (lg : Nat) (h : env.rowSize ≤ off) :
    leftHalf env fuel x off res lg = (ErrorStatus.NoError, off, res, lg) := by
  cases fuel with
  | zero => simp [leftHalf]
  | succ f => simp [leftHalf, Nat.not_lt.2 h]

/-- Projection form of `decodeMiddle` (structure eta makes the tuple matches
definitional). -/
lemma decodeMiddle_def (env : DecodeEnv) (off : Nat) (res : List Char) :
    decodeMiddle env off res =
      if StatusIsError (leftHalf env 6 0 off res 0).1 then
        ((leftHalf env 6 0 off res 0).1, (leftHalf env 6 0 off res 0).2.1,
          (leftHalf env 6 0 off res 0).2.2.1)
      else if StatusIsError (DetermineFirstDigit (leftHalf env 6 0 off res 0).2.2.1
          (leftHalf env 6 0 off res 0).2.2.2).1 then
        ((DetermineFirstDigit (leftHalf env 6 0 off res 0).2.2.1
            (leftHalf env 6 0 off res 0).2.2.2).1,
          (leftHalf env 6 0 off res 0).2.1,
          (DetermineFirstDigit (leftHalf env 6 0 off res 0).2.2.1
            (leftHalf env 6 0 off res 0).2.2.2).2)
      else
        afterFirstDigit env (leftHalf env 6 0 off res 0).2.1
          (DetermineFirstDigit (leftHalf env 6 0 off res 0).2.2.1
            (leftHalf env 6 0 off res 0).2.2.2).2 := rfl

/-- Inversion of a successful `decodeMiddle`: the left half succeeded, the
first digit was determined (some `d < 10`, consed onto the left-half
result), the middle guard was found, and the overall outcome is that of the
right-half loop started at the guard's end. -/
lemma decodeMiddle_success (env : DecodeEnv) (off : Nat) (res : List Char)
    (h : (decodeMiddle env off res).1 = ErrorStatus.NoError) :
    (leftHalf env 6 0 off res 0).1 = ErrorStatus.NoError ∧
    ∃ d b e, d < 10 ∧
      DetermineFirstDigit (leftHalf env 6 0 off res 0).2.2.1
          (leftHalf env 6 0 off res 0).2.2.2 =
        (ErrorStatus.NoError,
          Char.ofNat (48 + d) :: (leftHalf env 6 0 off res 0).2.2.1) ∧
      env.findGuard (leftHalf env 6 0 off res 0).2.1 = some (b, e) ∧
      decodeMiddle env off res =
        rightHalf env 6 e
          (Char.ofNat (48 + d) :: (leftHalf env 6 0 off res 0).2.2.1) := by
  rcases leftHalf_status env 6 0 off res 0 with hst | hst
  · refine ⟨hst, ?_⟩
    rcases firstDigitSearch_shape (leftHalf env 6 0 off res 0).2.2.1
        (leftHalf env 6 0 off res 0).2.2.2 0 10 with hD | ⟨k, hk, _, hD⟩
    · have hD2 : DetermineFirstDigit (leftHalf env 6 0 off res 0).2.2.1
          (leftHalf env 6 0 off res 0).2.2.2 =
          (ErrorStatus.NotFound, (leftHalf env 6 0 off res 0).2.2.1) := hD
      rw [decodeMiddle_def, hst, hD2] at h
      simp [StatusIsError] at h
    · have hD2 : DetermineFirstDigit (leftHalf env 6 0 off res 0).2.2.1
          (leftHalf env 6 0 off res 0).2.2.2 =
          (ErrorStatus.NoError,
            Char.ofNat (48 + k) :: (leftHalf env 6 0 off res 0).2.2.1) := by
        have : DetermineFirstDigit (leftHalf env 6 0 off res 0).2.2.1
            (leftHalf env 6 0 off res 0).2.2.2 =
            (ErrorStatus.NoError,
              Char.ofNat (48 + (0 + k)) :: (leftHalf env 6 0 off res 0).2.2.1) := hD
        simpa using this
      rw [decodeMiddle_def, hst, hD2] at h
      simp only [StatusIsError, Bool.false_eq_true, if_false] at h
      rw [afterFirstDigit] at h
      cases hG : env.findGuard (leftHalf env 6 0 off res 0).2.1 with
      | none => rw [hG] at h; simp at h
      | some be =>
        obtain ⟨b, e⟩ := be
        refine ⟨k, b, e, by omega, hD2, rfl, ?_⟩
        rw [decodeMiddle_def, hst, hD2]
        simp only [StatusIsError, Bool.false_eq_true, if_false]
        rw [afterFirstDigit, hG]
  · rw [decodeMiddle_def, hst] at h
    simp [StatusIsError] at h

/-- The ten characters `48 + n`, `n < 10`, are the ASCII digits. -/
lemma digitChar_bounds (n : Nat) (hn : n < 10) :
    48 ≤ (Char.ofNat (48 + n)).toNat ∧ (Char.ofNat (48 + n)).toNat ≤ 57 := by
  interval_cases n <;> exact by decide

/-- The matcher behaviour of `exEnv` obeys the L-and-G matcher contract. -/
lemma exEnv_contractLG : ContractLG exEnv := by
  intro off bm cs h
  simp [exEnv] at h
  obtain ⟨h1, rfl, rfl⟩ := h
  refine ⟨by omega, ?_⟩
  simp only [exEnv, Counters.sum]
  omega

/-- The matcher behaviour of `exEnv` obeys the L matcher contract. -/
lemma exEnv_contractL : ContractL exEnv := by
  intro off bm cs h
  simp [exEnv] at h

/-- The guard behaviour of `exEnv` obeys the guard-finder contract. -/
lemma exEnv_contractGuard : ContractGuard exEnv := by
  intro off b e h
  simp [exEnv] at h
  obtain ⟨rfl, rfl, rfl⟩ := h
  exact ⟨Nat.le_refl _, by omega, by simp [exEnv]⟩

/-- The matcher behaviour of `exEnvOk` obeys the L-and-G matcher contract. -/
lemma exEnvOk_contractLG : ContractLG exEnvOk := by
  intro off bm cs h
  simp [exEnvOk] at h
  obtain ⟨h1, rfl, rfl⟩ := h
  refine ⟨by omega, ?_⟩
  simp only [exEnvOk, Counters.sum]
  omega

/-- The matcher behaviour of `exEnvOk` obeys the L matcher contract. -/
lemma exEnvOk_contractL : ContractL exEnvOk := by
  intro off bm cs h
  simp [exEnvOk] at h
  obtain ⟨⟨h1, h2⟩, rfl, rfl⟩ := h
  refine ⟨by omega, ?_⟩
  simp only [exEnvOk, Counters.sum]
  omega

/-- The guard behaviour of `exEnvOk` obeys the guard-finder contract. -/
lemma exEnvOk_contractGuard : ContractGuard exEnvOk := by
  intro off b e h
  simp [exEnvOk] at h
  obtain ⟨rfl, rfl, rfl⟩ := h
  exact ⟨Nat.le_refl _, by omega, by simp [exEnvOk]⟩

/-- The guard behaviour of `exEnvShort` (it never matches) vacuously obeys
the guard-finder contract. -/
lemma exEnvShort_contractGuard : ContractGuard exEnvShort := by
  intro off b e h
  simp [exEnvShort] at h

/-- Characters produced for left-half digits are ASCII digits. -/
lemma leftChars_digit (env : DecodeEnv) (fuel off : Nat) :
    ∀ c ∈ (leftBMs env fuel off).map (fun bm => Char.ofNat (48 + bm % 10)),
      48 ≤ c.toNat ∧ c.toNat ≤ 57 := by
  intro c hc
  simp only [List.mem_map] at hc
  obtain ⟨bm, _, rfl⟩ := hc
  exact digitChar_bounds _ (Nat.mod_lt _ (by omega))

/-- Under the matcher contract, characters produced for right-half digits
are ASCII digits. -/
lemma rightChars_digit (env : DecodeEnv) (hL : ContractL env) (fuel off : Nat) :
    ∀ c ∈ (rightBMs env fuel off).map (fun bm => Char.ofNat (48 + bm)),
      48 ≤ c.toNat ∧ c.toNat ≤ 57 := by
  intro c hc
  simp only [List.mem_map] at hc
  obtain ⟨bm, hbm, rfl⟩ := hc
  exact digitChar_bounds _ (rightBMs_lt env hL fuel off bm hbm)

/-- C1 (amended): under the matcher and guard-finder contracts, a successful
`decodeMiddle` on an initially empty result produces only ASCII decimal
characters; the left half always completes all six digits, so the result
has `7 + k` characters where `k ≤ 6` counts the right-half digits decoded
before the cursor reached the scanline end. The count is exactly 13 only
when the right half also completes six iterations — the original claim that
success always yields 13 characters is refuted by
`decodeMiddle_claimed_length_counterexample`. -/
theorem decodeMiddle_success_result (env : DecodeEnv) (hL : ContractL env)
    (hG : ContractGuard env) (off : Nat)
    (hsucc : (decodeMiddle env off []).1 = ErrorStatus.NoError) :
    (∀ c ∈ (decodeMiddle env off []).2.2, 48 ≤ c.toNat ∧ c.toNat ≤ 57) ∧
    (leftBMs env 6 off).length = 6 ∧
    ∃ b e, env.findGuard (leftHalf env 6 0 off [] 0).2.1 = some (b, e) ∧
      ((decodeMiddle env off []).2.2).length = 7 + (rightBMs env 6 e).length ∧
      (rightBMs env 6 e).length ≤ 6 := by
  obtain ⟨hst, d, b, e, hd10, hD, hG2, hEq⟩ := decodeMiddle_success env off [] hsucc
  obtain ⟨hb1, hb2, hb3⟩ := hG _ _ _ hG2
  have hlen6 : (leftBMs env 6 off).length = 6 := by
    rcases leftHalf_noError env 6 0 off [] 0 hst with h6 | h6
    · exact h6
    · omega
  have hresL : (leftHalf env 6 0 off [] 0).2.2.1 =
      (leftBMs env 6 off).map (fun bm => Char.ofNat (48 + bm % 10)) := by
    simpa using leftHalf_res env 6 0 off [] 0
  have hres : (decodeMiddle env off []).2.2 =
      (Char.ofNat (48 + d) ::
        (leftBMs env 6 off).map (fun bm => Char.ofNat (48 + bm % 10))) ++
        (rightBMs env 6 e).map (fun bm => Char.ofNat (48 + bm)) := by
    rw [hEq, rightHalf_res, hresL]
  refine ⟨?_, hlen6, b, e, hG2, ?_, rightBMs_length_le env 6 e⟩
  · intro c hc
    rw [hres] at hc
    simp only [List.mem_append, List.mem_cons] at hc
    rcases hc with (rfl | hc) | hc
    · exact digitChar_bounds d hd10
    · exact leftChars_digit env 6 off c hc
    · exact rightChars_digit env hL 6 e c hc
  · rw [hres]
    simp only [List.length_append, List.length_cons, List.length_map, hlen6]

/-- Witness for C1 (amended): the full success in `exEnvOk` (13 characters). -/
theorem decodeMiddle_success_result_witness :
    (∀ c ∈ (decodeMiddle exEnvOk 0 []).2.2, 48 ≤ c.toNat ∧ c.toNat ≤ 57) ∧
    (leftBMs exEnvOk 6 0).length = 6 ∧
    ∃ b e, exEnvOk.findGuard (leftHalf exEnvOk 6 0 0 [] 0).2.1 = some (b, e) ∧
      ((decodeMiddle exEnvOk 0 []).2.2).length = 7 + (rightBMs exEnvOk 6 e).length ∧
      (rightBMs exEnvOk 6 e).length ≤ 6 :=
  decodeMiddle_success_result exEnvOk exEnvOk_contractL exEnvOk_contractGuard 0
    (by decide)

/-- C1 counterexample: with contract-conforming collaborators (`exEnv`, see
its contract lemmas) whose scanline ends exactly at the middle guard,
`decodeMiddle` on an empty result returns `NoError` with only 7
characters — not 13 as claimed. -/
theorem decodeMiddle_claimed_length_counterexample :
    (decodeMiddle exEnv 0 []).1 = ErrorStatus.NoError ∧
    ((decodeMiddle exEnv 0 []).2.2).length = 7 := by decide

/-- C2 (amended): under the guard-finder contract, early termination of the
LEFT six-digit loop because the cursor reached the scanline length makes
`decodeMiddle` fail with `NotFound` (the middle guard cannot be found at or
past the scanline end). The original claim also covered the RIGHT loop, but
an exhausted right-half loop returns `NoError` — success — immediately
(second conjunct); the refutation at a concrete input is
`decodeMiddle_right_exhaustion_counterexample`. -/
theorem decodeMiddle_left_exhaustion_fails (env : DecodeEnv)
    (hG : ContractGuard env) (off : Nat) (res : List Char)
    (hst : (leftHalf env 6 0 off res 0).1 = ErrorStatus.NoError)
    (hshort : (leftBMs env 6 off).length < 6) :
    (decodeMiddle env off res).1 = ErrorStatus.NotFound ∧
    ∀ fuel off2 res2, env.rowSize ≤ off2 →
      rightHalf env fuel off2 res2 = (ErrorStatus.NoError, off2, res2) := by
  refine ⟨?_, fun fuel off2 res2 h2 => rightHalf_exhausted env fuel off2 res2 h2⟩
  have hoffL : env.rowSize ≤ (leftHalf env 6 0 off res 0).2.1 := by
    rcases leftHalf_noError env 6 0 off res 0 hst with h6 | h6
    · omega
    · exact h6
  rcases firstDigitSearch_shape (leftHalf env 6 0 off res 0).2.2.1
      (leftHalf env 6 0 off res 0).2.2.2 0 10 with hD | ⟨k, hk, _, hD⟩
  · have hD2 : DetermineFirstDigit (leftHalf env 6 0 off res 0).2.2.1
        (leftHalf env 6 0 off res 0).2.2.2 =
        (ErrorStatus.NotFound, (leftHalf env 6 0 off res 0).2.2.1) := hD
    rw [decodeMiddle_def, hst, hD2]
    simp [StatusIsError]
  · have hD2 : DetermineFirstDigit (leftHalf env 6 0 off res 0).2.2.1
        (leftHalf env 6 0 off res 0).2.2.2 =
        (ErrorStatus.NoError,
          Char.ofNat (48 + (0 + k)) :: (leftHalf env 6 0 off res 0).2.2.1) := hD
    rw [decodeMiddle_def, hst, hD2]
    simp only [StatusIsError, Bool.false_eq_true, if_false]
    rw [afterFirstDigit]
    cases hG2 : env.findGuard (leftHalf env 6 0 off res 0).2.1 with
    | none => rfl
    | some be =>
      obtain ⟨b, e⟩ := be
      obtain ⟨hb1, hb2, hb3⟩ := hG _ _ _ hG2
      exfalso
      omega

/-- Witness for C2 (amended): in `exEnvShort` the scanline holds only two
left-half digits, the left loop exits early with `NoError`, and the decode
fails with `NotFound`. -/
theorem decodeMiddle_left_exhaustion_fails_witness :
    (decodeMiddle exEnvShort 0 []).1 = ErrorStatus.NotFound ∧
    ∀ fuel off2 res2, exEnvShort.rowSize ≤ off2 →
      rightHalf exEnvShort fuel off2 res2 = (ErrorStatus.NoError, off2, res2) :=
  decodeMiddle_left_exhaustion_fails exEnvShort exEnvShort_contractGuard 0 []
    (by decide) (by decide)

/-- C2 counterexample: in `exEnv` the right-half loop terminates at its very
first check because the cursor (47) already equals the scanline length, so
zero of its six iterations run, yet `decodeMiddle` returns success —
refuting the claim that early loop termination always ends in `NotFound`. -/
theorem decodeMiddle_right_exhaustion_counterexample :
    (decodeMiddle exEnv 0 []).2.1 = exEnv.rowSize ∧
    (rightBMs exEnv 6 47).length = 0 ∧
    (decodeMiddle exEnv 0 []).1 = ErrorStatus.NoError := by decide

/-- C4: on success the result string is, in order, the character
`48 + d` of the inferred first digit consed at position 0 onto the input
followed by one character `48 + bestMatch % 10` per left-half digit (all
six of them, matched against the 20-entry L-and-G table), followed by one
character `48 + bestMatch` per right-half digit (matched against the
10-entry L-table): the leading digit is inserted in front only after the
whole left half has been appended, and before the right half is. -/
theorem decodeMiddle_characters (env : DecodeEnv) (hG : ContractGuard env)
    (off : Nat) (res : List Char)
    (hsucc : (decodeMiddle env off res).1 = ErrorStatus.NoError) :
    (leftBMs env 6 off).length = 6 ∧
    ∃ d b e, d < 10 ∧
      env.findGuard (leftHalf env 6 0 off res 0).2.1 = some (b, e) ∧
      (decodeMiddle env off res).2.2 =
        (Char.ofNat (48 + d) ::
          (res ++ (leftBMs env 6 off).map (fun bm => Char.ofNat (48 + bm % 10)))) ++
          (rightBMs env 6 e).map (fun bm => Char.ofNat (48 + bm)) := by
  obtain ⟨hst, d, b, e, hd10, hD, hG2, hEq⟩ := decodeMiddle_success env off res hsucc
  obtain ⟨hb1, hb2, hb3⟩ := hG _ _ _ hG2
  have hlen6 : (leftBMs env 6 off).length = 6 := by
    rcases leftHalf_noError env 6 0 off res 0 hst with h6 | h6
    · exact h6
    · omega
  refine ⟨hlen6, d, b, e, hd10, hG2, ?_⟩
  rw [hEq, rightHalf_res, leftHalf_res]

/-- Witness for C4: the successful decode in `exEnvOk`. -/
theorem decodeMiddle_characters_witness :
    (leftBMs exEnvOk 6 0).length = 6 ∧
    ∃ d b e, d < 10 ∧
      exEnvOk.findGuard (leftHalf exEnvOk 6 0 0 [] 0).2.1 = some (b, e) ∧
      (decodeMiddle exEnvOk 0 []).2.2 =
        (Char.ofNat (48 + d) ::
          ([] ++ (leftBMs exEnvOk 6 0).map (fun bm => Char.ofNat (48 + bm % 10)))) ++
          (rightBMs exEnvOk 6 e).map (fun bm => Char.ofNat (48 + bm)) :=
  decodeMiddle_characters exEnvOk exEnvOk_contractGuard 0 [] (by decide)

/-- C5: the parity accumulator of the left-half loop, started at any loop
position `x` (with `fuel = 6 - x` iterations allowed) from a mask below 64
whose low `fuel` bits are clear — in particular from `decodeMiddle`'s
initial state `x = 0`, `lg = 0` — stays below 64 (at most six bits), and in
the final mask bit `5 - y` is set exactly when the `y`-th left-half digit
was decoded with `bestMatch >= 10` (a G-pattern); bits of digits decoded
before entry are preserved, and positions never reached stay clear. -/
theorem leftHalf_parity_mask (env : DecodeEnv) (fuel x off : Nat)
    (res : List Char) (lg : Nat) (hx : x + fuel = 6)
    (hlow : ∀ p, p < fuel → lg.testBit p = false) (hlg : lg < 64) :
    (leftHalf env fuel x off res lg).2.2.2 < 64 ∧
    ∀ y, y < 6 → (leftHalf env fuel x off res lg).2.2.2.testBit (5 - y) =
      if y < x then lg.testBit (5 - y)
      else decide (10 ≤ (leftBMs env fuel off).getD (y - x) 0) :=
  leftHalf_lg env fuel x off res lg hx hlow hlg

/-- Witness for C5: the full left half of `exEnvOk` from the initial state. -/
theorem leftHalf_parity_mask_witness :
    (leftHalf exEnvOk 6 0 0 [] 0).2.2.2 < 64 ∧
    ∀ y, y < 6 → (leftHalf exEnvOk 6 0 0 [] 0).2.2.2.testBit (5 - y) =
      if y < 0 then Nat.testBit 0 (5 - y)
      else decide (10 ≤ (leftBMs exEnvOk 6 0).getD (y - 0) 0) :=
  leftHalf_parity_mask exEnvOk 6 0 0 [] 0 (by decide)
    (fun p _ => Nat.zero_testBit p) (by decide)

/-- C6: each successful digit decode advances the cursor by exactly the sum
of the four counters (the two step equations), and — under the matcher and
guard-finder contracts — a successful `decodeMiddle` entered with the
cursor inside the scanline moves it monotonically: entry cursor ≤ cursor
after the left half ≤ end of the middle guard ≤ final cursor ≤ scanline
length. -/
theorem decodeMiddle_cursor (env : DecodeEnv) (hLG : ContractLG env)
    (hL : ContractL env) (hG : ContractGuard env) (off : Nat) (res : List Char)
    (hoff : off ≤ env.rowSize)
    (hsucc : (decodeMiddle env off res).1 = ErrorStatus.NoError) :
    (∀ fuel x off2 res2 lg bm cs, off2 < env.rowSize →
      env.decodeLG off2 = some (bm, cs) →
      leftHalf env (fuel + 1) x off2 res2 lg =
        leftHalf env fuel (x + 1) (off2 + cs.sum)
          (res2 ++ [Char.ofNat (48 + bm % 10)])
          (if 10 ≤ bm then lg ||| (1 <<< (5 - x)) else lg)) ∧
    (∀ fuel off2 res2 bm cs, off2 < env.rowSize →
      env.decodeL off2 = some (bm, cs) →
      rightHalf env (fuel + 1) off2 res2 =
        rightHalf env fuel (off2 + cs.sum) (res2 ++ [Char.ofNat (48 + bm)])) ∧
    off ≤ (leftHalf env 6 0 off res 0).2.1 ∧
    ∃ b e, env.findGuard (leftHalf env 6 0 off res 0).2.1 = some (b, e) ∧
      (leftHalf env 6 0 off res 0).2.1 ≤ e ∧
      e ≤ (decodeMiddle env off res).2.1 ∧
      (decodeMiddle env off res).2.1 ≤ env.rowSize := by
  obtain ⟨hst, d, b, e, hd10, hD, hG2, hEq⟩ := decodeMiddle_success env off res hsucc
  obtain ⟨hb1, hb2, hb3⟩ := hG _ _ _ hG2
  have h1 : off ≤ (leftHalf env 6 0 off res 0).2.1 :=
    leftHalf_off_mono env 6 0 off res 0
  have h3 : e ≤ (rightHalf env 6 e
      (Char.ofNat (48 + d) :: (leftHalf env 6 0 off res 0).2.2.1)).2.1 :=
    rightHalf_off_mono env 6 e _
  have h4 : (rightHalf env 6 e
      (Char.ofNat (48 + d) :: (leftHalf env 6 0 off res 0).2.2.1)).2.1 ≤
      env.rowSize :=
    rightHalf_off_le env hL 6 e _ hb3
  refine ⟨?_, ?_, h1, b, e, hG2, by omega, ?_, ?_⟩
  · intro fuel x off2 res2 lg bm cs h2 hd
    simp [leftHalf, if_pos h2, hd]
  · intro fuel off2 res2 bm cs h2 hd
    simp [rightHalf, if_pos h2, hd]
  · rw [hEq]; exact h3
  · rw [hEq]; exact h4

/-- Witness for C6: the successful decode in `exEnvOk` (cursor 0 to 89 on a
scanline of 89 bits, via the guard span 42..47). -/
theorem decodeMiddle_cursor_witness :
    (∀ fuel x off2 res2 lg bm cs, off2 < exEnvOk.rowSize →
      exEnvOk.decodeLG off2 = some (bm, cs) →
      leftHalf exEnvOk (fuel + 1) x off2 res2 lg =
        leftHalf exEnvOk fuel (x + 1) (off2 + cs.sum)
          (res2 ++ [Char.ofNat (48 + bm % 10)])
          (if 10 ≤ bm then lg ||| (1 <<< (5 - x)) else lg)) ∧
    (∀ fuel off2 res2 bm cs, off2 < exEnvOk.rowSize →
      exEnvOk.decodeL off2 = some (bm, cs) →
      rightHalf exEnvOk (fuel + 1) off2 res2 =
        rightHalf exEnvOk fuel (off2 + cs.sum) (res2 ++ [Char.ofNat (48 + bm)])) ∧
    0 ≤ (leftHalf exEnvOk 6 0 0 [] 0).2.1 ∧
    ∃ b e, exEnvOk.findGuard (leftHalf exEnvOk 6 0 0 [] 0).2.1 = some (b, e) ∧
      (leftHalf exEnvOk 6 0 0 [] 0).2.1 ≤ e ∧
      e ≤ (decodeMiddle exEnvOk 0 []).2.1 ∧
      (decodeMiddle exEnvOk 0 []).2.1 ≤ exEnvOk.rowSize :=
  decodeMiddle_cursor exEnvOk exEnvOk_contractLG exEnvOk_contractL
    exEnvOk_contractGuard 0 [] (by decide) (by decide)

/-- C9: on every return path of `decodeMiddle` — left-half matcher error,
first-digit failure, guard failure, or success — the input result string
appears contiguously and unchanged in the output, with at most one
character (the inferred first digit) in front of it and only ASCII digit
characters appended after it (right-half digit characters under the
matcher contract). -/
theorem decodeMiddle_preserves_input (env : DecodeEnv) (hL : ContractL env)
    (off : Nat) (res : List Char) :
    ∃ pre post, (decodeMiddle env off res).2.2 = pre ++ res ++ post ∧
      pre.length ≤ 1 ∧
      (∀ c ∈ pre, 48 ≤ c.toNat ∧ c.toNat ≤ 57) ∧
      (∀ c ∈ post, 48 ≤ c.toNat ∧ c.toNat ≤ 57) := by
  have hresL := leftHalf_res env 6 0 off res 0
  rcases leftHalf_status env 6 0 off res 0 with hst | hst
  · rcases firstDigitSearch_shape (leftHalf env 6 0 off res 0).2.2.1
        (leftHalf env 6 0 off res 0).2.2.2 0 10 with hD | ⟨k, hk, _, hD⟩
    · have hD2 : DetermineFirstDigit (leftHalf env 6 0 off res 0).2.2.1
          (leftHalf env 6 0 off res 0).2.2.2 =
          (ErrorStatus.NotFound, (leftHalf env 6 0 off res 0).2.2.1) := hD
      refine ⟨[], (leftBMs env 6 off).map (fun bm => Char.ofNat (48 + bm % 10)),
        ?_, by simp, by simp, leftChars_digit env 6 off⟩
      rw [decodeMiddle_def, hst, hD2]
      simp only [StatusIsError, Bool.false_eq_true, if_false, if_true]
      rw [hresL]
      simp
    · have hD2 : DetermineFirstDigit (leftHalf env 6 0 off res 0).2.2.1
          (leftHalf env 6 0 off res 0).2.2.2 =
          (ErrorStatus.NoError,
            Char.ofNat (48 + (0 + k)) :: (leftHalf env 6 0 off res 0).2.2.1) := hD
      cases hG2 : env.findGuard (leftHalf env 6 0 off res 0).2.1 with
      | none =>
        refine ⟨[Char.ofNat (48 + (0 + k))],
          (leftBMs env 6 off).map (fun bm => Char.ofNat (48 + bm % 10)),
          ?_, by simp, ?_, leftChars_digit env 6 off⟩
        · rw [decodeMiddle_def, hst, hD2]
          simp only [StatusIsError, Bool.false_eq_true, if_false]
          rw [afterFirstDigit, hG2, hresL]
          simp
        · intro c hc
          simp only [List.mem_singleton] at hc
          subst hc
          exact digitChar_bounds (0 + k) (by omega)
      | some be =>
        obtain ⟨b, e⟩ := be
        refine ⟨[Char.ofNat (48 + (0 + k))],
          (leftBMs env 6 off).map (fun bm => Char.ofNat (48 + bm % 10)) ++
            (rightBMs env 6 e).map (fun bm => Char.ofNat (48 + bm)),
          ?_, by simp, ?_, ?_⟩
        · rw [decodeMiddle_def, hst, hD2]
          simp only [StatusIsError, Bool.false_eq_true, if_false]
          rw [afterFirstDigit, hG2, rightHalf_res, hresL]
          simp
        · intro c hc
          simp only [List.mem_singleton] at hc
          subst hc
          exact digitChar_bounds (0 + k) (by omega)
        · intro c hc
          rcases List.mem_append.1 hc with hc | hc
          · exact leftChars_digit env 6 off c hc
          · exact rightChars_digit env hL 6 e c hc
  · refine ⟨[], (leftBMs env 6 off).map (fun bm => Char.ofNat (48 + bm % 10)),
      ?_, by simp, by simp, leftChars_digit env 6 off⟩
    rw [decodeMiddle_def, hst]
    simp only [StatusIsError, if_true]
    rw [hresL]
    simp

/-- Witness for C9: the successful decode in `exEnvOk`. -/
theorem decodeMiddle_preserves_input_witness :
    ∃ pre post, (decodeMiddle exEnvOk 5 [Char.ofNat 65]).2.2 =
        pre ++ [Char.ofNat 65] ++ post ∧
      pre.length ≤ 1 ∧
      (∀ c ∈ pre, 48 ≤ c.toNat ∧ c.toNat ≤ 57) ∧
      (∀ c ∈ post, 48 ≤ c.toNat ∧ c.toNat ≤ 57) :=
  decodeMiddle_preserves_input exEnvOk exEnvOk_contractL 5 [Char.ofNat 65]

/-- C10: entered with the cursor already at or past the scanline length,
the left-half loop performs zero iterations and reports `NoError`, the
parity mask is still 0, which is `FIRST_DIGIT_ENCODINGS[0]`, so
`DetermineFirstDigit` succeeds, inserting the character of digit 0 at
position 0, and `decodeMiddle` proceeds to the middle-guard search instead
of failing immediately. -/
theorem decodeMiddle_entry_exhausted (env : DecodeEnv) (off : Nat)
    (res : List Char) (h : env.rowSize ≤ off) :
    leftHalf env 6 0 off res 0 = (ErrorStatus.NoError, off, res, 0) ∧
    FIRST_DIGIT_ENCODINGS.getD 0 0 = 0 ∧
    DetermineFirstDigit res 0 = (ErrorStatus.NoError, Char.ofNat 48 :: res) ∧
    decodeMiddle env off res = afterFirstDigit env off (Char.ofNat 48 :: res) := by
  have hLH := leftHalf_exhausted env 6 0 off res 0 h
  have hDF : DetermineFirstDigit res 0 =
      (ErrorStatus.NoError, Char.ofNat 48 :: res) := rfl
  refine ⟨hLH, rfl, hDF, ?_⟩
  rw [decodeMiddle_def, hLH]
  simp only [StatusIsError, Bool.false_eq_true, if_false]
  rw [show (DetermineFirstDigit res 0) =
    (ErrorStatus.NoError, Char.ofNat 48 :: res) from hDF]
  simp [StatusIsError]

/-- Witness for C10: entering `exEnvShort` (scanline of 14 bits) at cursor
14 skips the left half, inserts the digit 0, and reaches the guard search. -/
theorem decodeMiddle_entry_exhausted_witness :
    leftHalf exEnvShort 6 0 14 [] 0 = (ErrorStatus.NoError, 14, [], 0) ∧
    FIRST_DIGIT_ENCODINGS.getD 0 0 = 0 ∧
    DetermineFirstDigit [] 0 = (ErrorStatus.NoError, [Char.ofNat 48]) ∧
    decodeMiddle exEnvShort 14 [] = afterFirstDigit exEnvShort 14 [Char.ofNat 48] :=
  decodeMiddle_entry_exhausted exEnvShort 14 [] (by decide)
